import Mathlib

/-!
Verification of the SynthChar batch-composition engine.

The engine state and derived results live in `src/contexts/BatchContext.tsx`
(`BatchProvider`): the atomic-mass CSV loader, the molecular-weight update
effects, `compResults`, `productResults`, the adjusted batch weights, the
composition extractor and the component-count resize effect are embedded
below directly from that file.  The chemistry library it imports
(`@/lib/chemistry`, `@/lib/gfUtils`, `@/lib/batchCalculations`) is not part of
the repository snapshot; the definitions marked `Modelled from the spec:`
reconstruct those functions from the specification.

Numbers are embedded as rationals.  `Rat.add`, `Rat.mul` and `Rat.inv` are
irreducible, so the embedding computes with `mkRat`-based equivalents
(`qadd`, `qmul`, `qdiv`, proved equal to the standard operations further
down) to keep every definition evaluable by the kernel.
-/

namespace SynthChar

def qadd (a b : ℚ) : ℚ := mkRat (a.num * b.den + b.num * a.den) (a.den * b.den)

def qmul (a b : ℚ) : ℚ := mkRat (a.num * b.num) (a.den * b.den)

def qdiv (a b : ℚ) : ℚ := Rat.divInt (a.num * b.den) (a.den * b.num)

def qsum (l : List ℚ) : ℚ := l.foldr qadd 0

/-- JS `x || d` on a possibly-undefined number: `undefined` and `0` (the falsy
values arising here) fall back to the default. -/
def jsOrQ (o : Option ℚ) (d : ℚ) : ℚ :=
  match o with
  | none => d
  | some v => if v = 0 then d else v

/-! ### Data model (`src/types`, as used by `BatchContext.tsx`) -/

/-- An entry of the atomic-mass table (`AtomicMass` in the source). -/
structure AtomicMass where
  Symbol : String
  atomicMass : ℚ
  element : String
  atomicNumber : ℚ
deriving DecidableEq

/-- A raw entry as produced by the CSV loader: JS `undefined` (missing column)
and `NaN` (non-numeric text) are represented as `none`. -/
structure RawAtomicMass where
  Symbol : Option String
  atomicMass : Option ℚ
  element : Option String
  atomicNumber : Option ℚ
deriving DecidableEq

/-- A batch component (`ComponentItem` in the source). -/
structure ComponentItem where
  formula : String
  matrix : ℚ
  mw : ℚ
deriving DecidableEq

/-- A component together with its computed raw quantity (`ComponentResult`). -/
structure ComponentResult where
  formula : String
  matrix : ℚ
  mw : ℚ
  molQty : ℚ
deriving DecidableEq

/-- A product (`ProductItem` in the source); `gf` is `null` until computed. -/
structure ProductItem where
  formula : String
  mw : ℚ
  gf : Option ℚ
  precursorFormula : String
  precursorMoles : ℚ
  productMoles : ℚ
deriving DecidableEq

/-- A product together with its computed raw quantity (`ProductResult`). -/
structure ProductResult where
  formula : String
  mw : ℚ
  gf : Option ℚ
  precursorFormula : String
  precursorMoles : ℚ
  productMoles : ℚ
  molQty : ℚ
deriving DecidableEq

/-- One slice of the composition chart data (`ElementComposition`). -/
structure ElementComposition where
  element : String
  percentage : ℚ
  color : String
deriving DecidableEq

/-- One adjusted batch weight, keyed by precursor formula. -/
structure PrecursorWeight where
  precursor : String
  weight : ℚ
deriving DecidableEq

/-! ### Ordered string-keyed map, modelling a JS `Map`
(insertion order preserved; `set` on an existing key updates in place). -/

def mapGet : List (String × ℚ) → String → Option ℚ
  | [], _ => none
  | p :: rest, k => if p.1 = k then some p.2 else mapGet rest k

def mapSet : List (String × ℚ) → String → ℚ → List (String × ℚ)
  | [], k, v => [(k, v)]
  | p :: rest, k, v => if p.1 = k then (p.1, v) :: rest else p :: mapSet rest k v

/-- Add `v` into the entry for `k` (sum, not overwrite), appending if absent. -/
def addCount : List (String × ℚ) → String → ℚ → List (String × ℚ)
  | [], k, v => [(k, v)]
  | p :: rest, k, v => if p.1 = k then (p.1, qadd p.2 v) :: rest else p :: addCount rest k v

/-! ### FormulaParser

Modelled from the spec: the formula parser of the chemistry library
(`@/lib/chemistry`) is not part of the repository snapshot; only its callers
are.  Grammar per the spec (section 4.1): a formula is a sequence of groups,
each an element symbol (one uppercase letter plus optional lowercase letters)
with an optional integer-or-decimal count (default 1), or a parenthesised
sub-formula with an optional count that multiplies every entry of the popped
scope before it is summed (not overwritten) into the enclosing scope.
Explicit stack of count maps; fails on unbalanced parentheses or an
unrecognised character.  The fuel argument is the input length plus one, and
every step consumes at least one character, so it never runs out. -/

def readLower : List Char → List Char × List Char
  | [] => ([], [])
  | c :: cs =>
    if c.isLower then ((c :: (readLower cs).1), (readLower cs).2)
    else ([], c :: cs)

def readDigits : List Char → List Char × List Char
  | [] => ([], [])
  | c :: cs =>
    if c.isDigit then ((c :: (readDigits cs).1), (readDigits cs).2)
    else ([], c :: cs)

def digitsToNat (ds : List Char) : ℕ := ds.foldl (fun a c => a * 10 + (c.toNat - 48)) 0

/-- Read an optional numeric literal (integer or decimal); default 1 if absent. -/
def readCount (cs : List Char) : ℚ × List Char :=
  match cs with
  | [] => (1, [])
  | c :: _ =>
    if c.isDigit then
      match (readDigits cs).2 with
      | '.' :: c2 :: rest2 =>
        if c2.isDigit then
          (mkRat (digitsToNat (readDigits cs).1 * 10 ^ (readDigits (c2 :: rest2)).1.length +
              digitsToNat (readDigits (c2 :: rest2)).1) (10 ^ (readDigits (c2 :: rest2)).1.length),
            (readDigits (c2 :: rest2)).2)
        else (mkRat (digitsToNat (readDigits cs).1) 1, (readDigits cs).2)
      | _ => (mkRat (digitsToNat (readDigits cs).1) 1, (readDigits cs).2)
    else (1, cs)

def scaleCounts (m : List (String × ℚ)) (k : ℚ) : List (String × ℚ) :=
  m.map (fun p => (p.1, qmul p.2 k))

def mergeCounts (parent child : List (String × ℚ)) : List (String × ℚ) :=
  child.foldl (fun acc p => addCount acc p.1 p.2) parent

def parseLoop : ℕ → List Char → List (List (String × ℚ)) → Option (List (String × ℚ))
  | _, [], [top] => some top
  | _, [], _ => none
  | 0, _ :: _, _ => none
  | fuel + 1, '(' :: cs, stack => parseLoop fuel cs ([] :: stack)
  | fuel + 1, ')' :: cs, top :: parent :: rest =>
    parseLoop fuel (readCount cs).2 (mergeCounts parent (scaleCounts top (readCount cs).1) :: rest)
  | _ + 1, ')' :: _, _ => none
  | fuel + 1, c :: cs, top :: rest =>
    if c.isUpper then
      parseLoop fuel (readCount (readLower cs).2).2
        (addCount top (String.mk (c :: (readLower cs).1)) (readCount (readLower cs).2).1 :: rest)
    else none
  | _ + 1, _ :: _, [] => none

def parseFormula (f : String) : Option (List (String × ℚ)) :=
  parseLoop (f.toList.length + 1) f.toList [[]]

/-! ### MolecularWeightCalculator

Modelled from the spec: `molecularWeight` of `@/lib/chemistry` is not in the
snapshot.  Per section 4.2 it computes `sum(count_i * atomicMass(symbol_i))`
over the parser output and returns undefined (`none`) if parsing fails or any
symbol is absent from the table, never substituting zero. -/

def lookupMass (table : List AtomicMass) (s : String) : Option ℚ :=
  match table.find? (fun a => a.Symbol = s) with
  | some a => some a.atomicMass
  | none => none

def sumMasses : List (String × ℚ) → List AtomicMass → Option ℚ
  | [], _ => some 0
  | p :: rest, table =>
    match lookupMass table p.1, sumMasses rest table with
    | some m, some acc => some (qadd (qmul p.2 m) acc)
    | _, _ => none

def molecularWeight (f : String) (table : List AtomicMass) : Option ℚ :=
  (parseFormula f).bind (fun counts => sumMasses counts table)

/-! ### GravimetricFactorCalculator

Modelled from the spec: `calculateGF` of `@/lib/chemistry` is not in the
snapshot.  Per section 4.3: `GF = (productMoles * MW(product)) /
(precursorMoles * MW(precursor))`; undefined when either molecular weight is
undefined or `precursorMoles <= 0`; `productMoles = 0` yields `GF = 0`. -/

def calculateGF (precursorF productF : String) (precursorMoles productMoles : ℚ)
    (table : List AtomicMass) : Option ℚ :=
  match molecularWeight precursorF table, molecularWeight productF table with
  | some mwPre, some mwProd =>
    if precursorMoles ≤ 0 then none
    else some (qdiv (qmul productMoles mwProd) (qmul precursorMoles mwPre))
  | _, _ => none

/-! ### BatchProvider: stored molecular weights (`BatchContext.tsx` 120-135, 216-238)

The provider stores `molecularWeight(formula, atomics) || 0` into the `mw`
field, i.e. it coerces an undefined molecular weight to the number 0. -/

def mwOrZero (f : String) (atomics : List AtomicMass) : ℚ :=
  (molecularWeight f atomics).getD 0

/-- The effect recomputing every component's stored `mw` once the table is
loaded (`BatchContext.tsx` 120-127): `atomics.length ? molecularWeight(c.formula, atomics) || 0 : 0`. -/
def updateComponentMWs (components : List ComponentItem) (atomics : List AtomicMass) :
    List ComponentItem :=
  components.map (fun c => { c with mw := if atomics = [] then 0 else mwOrZero c.formula atomics })

/-- The `formula` branch of `handleComponentChange` (`BatchContext.tsx` 216-231):
stores the new formula and `molecularWeight(value, atomics) || 0`. -/
def handleComponentFormulaChange (components : List ComponentItem) (atomics : List AtomicMass)
    (i : ℕ) (v : String) : List ComponentItem :=
  components.mapIdx (fun j c =>
    if j = i then { c with formula := v, mw := mwOrZero v atomics } else c)

/-! ### Precursor-basis results (`BatchContext.tsx` 312-337) -/

/-- Map from precursor formula to its mole value (`BatchContext.tsx` 313-318);
later products overwrite earlier ones, empty formulas are skipped. -/
def precursorMolesMap (products : List ProductItem) : List (String × ℚ) :=
  products.foldl
    (fun m p => if p.precursorFormula = "" then m else mapSet m p.precursorFormula p.precursorMoles)
    []

/-- `compResults` (`BatchContext.tsx` 322-330):
`molQty = (c.matrix * c.mw * (precursorMolesMap.get(c.formula) || 1)) / 1000`. -/
def compResults (components : List ComponentItem) (products : List ProductItem) :
    List ComponentResult :=
  components.map (fun c =>
    ⟨c.formula, c.matrix, c.mw,
      qdiv (qmul (qmul c.matrix c.mw) (jsOrQ (mapGet (precursorMolesMap products) c.formula) 1))
        1000⟩)

/-- The mole ratio exactly as the claim words it: the precursor-mole value of
the product matched to the component's formula, defaulting to 1 when no
associated product supplies a ratio for that formula. -/
def moleRatioFromSpec (products : List ProductItem) (f : String) : ℚ :=
  match mapGet (precursorMolesMap products) f with
  | some v => v
  | none => 1

/-! ### BatchWeightNormalizer

Modelled from the spec: `calculateTotalBatchWeight` and
`calculateAdjustedBatchWeights` of `@/lib/chemistry` are not in the snapshot.
Per section 4.4: `raw_i = matrixPercent_i * weight_i * moleRatio_i / 1000`
(mole ratio from the map, default 1), `total = sum(raw_i)`, and
`normalized_i = desiredTotalMass * raw_i / total`, order preserving, with
every `normalized_i` defined as 0 when the total is 0. -/

def calculateTotalBatchWeight (components : List ComponentItem)
    (molesMap : List (String × ℚ)) : ℚ :=
  qsum (components.map (fun c =>
    qdiv (qmul (qmul c.matrix c.mw) (jsOrQ (mapGet molesMap c.formula) 1)) 1000))

def calculateAdjustedBatchWeights (components : List ComponentItem) (totalWeight desired : ℚ)
    (molesMap : List (String × ℚ)) : List PrecursorWeight :=
  components.map (fun c =>
    ⟨c.formula,
      if totalWeight = 0 then 0
      else
        qdiv
          (qmul desired
            (qdiv (qmul (qmul c.matrix c.mw) (jsOrQ (mapGet molesMap c.formula) 1)) 1000))
          totalWeight⟩)

/-! ### Product-basis (gravimetric-factor-adjusted) results
(`BatchContext.tsx` 340-382) -/

/-- Matrix of the component whose formula equals the product's precursor
formula, 0 if there is none (`BatchContext.tsx` 342-343 and 371). -/
def matrixOfPrecursor (components : List ComponentItem) (pf : String) : ℚ :=
  match components.find? (fun c => c.formula = pf) with
  | some c => c.matrix
  | none => 0

/-- `effectiveMW` (`BatchContext.tsx` 346-348): `p.gf !== null && p.productMoles > 0
&& p.precursorMoles > 0 ? p.mw * p.gf : p.mw`. -/
def effectiveMW (p : ProductItem) : ℚ :=
  match p.gf with
  | some g => if 0 < p.productMoles ∧ 0 < p.precursorMoles then qmul p.mw g else p.mw
  | none => p.mw

/-- The gravimetric-factor-adjusted weight used for the normalisation input
(`BatchContext.tsx` 372): `p.gf !== null ? p.mw * p.gf : p.mw`. -/
def gfWeight (p : ProductItem) : ℚ :=
  match p.gf with
  | some g => qmul p.mw g
  | none => p.mw

/-- `productResults` (`BatchContext.tsx` 340-355):
`molQty = (precursorMatrix * effectiveMW * p.productMoles) / 1000`. -/
def productResults (components : List ComponentItem) (products : List ProductItem) :
    List ProductResult :=
  products.map (fun p =>
    ⟨p.formula, p.mw, p.gf, p.precursorFormula, p.precursorMoles, p.productMoles,
      qdiv (qmul (qmul (matrixOfPrecursor components p.precursorFormula) (effectiveMW p))
        p.productMoles) 1000⟩)

/-- `productTotalWeight` (`BatchContext.tsx` 358). -/
def productTotalWeight (components : List ComponentItem) (products : List ProductItem) : ℚ :=
  qsum ((productResults components products).map (fun p => p.molQty))

/-- Map from product formula to its mole value (`BatchContext.tsx` 361-366). -/
def productMolesMap (products : List ProductItem) : List (String × ℚ) :=
  products.foldl (fun m p => if p.formula = "" then m else mapSet m p.formula p.productMoles) []

/-- `productComponents` (`BatchContext.tsx` 369-373). -/
def productComponents (components : List ComponentItem) (products : List ProductItem) :
    List ComponentItem :=
  products.map (fun p => ⟨p.formula, matrixOfPrecursor components p.precursorFormula, gfWeight p⟩)

/-- `productBatchWeights` (`BatchContext.tsx` 376-381). -/
def productBatchWeights (components : List ComponentItem) (products : List ProductItem)
    (desired : ℚ) : List PrecursorWeight :=
  calculateAdjustedBatchWeights (productComponents components products)
    (productTotalWeight components products) desired (productMolesMap products)

/-- `productWeightPercents` (`BatchContext.tsx` 382). -/
def productWeightPercents (components : List ComponentItem) (products : List ProductItem)
    (desired : ℚ) : List ℚ :=
  (productBatchWeights components products desired).map (fun w => w.weight)

/-! ### CompositionExtractor (`BatchContext.tsx` 464-502) -/

/-- The components the extractor keeps: nonempty formula and truthy matrix
(`if (!comp.formula || !comp.matrix) continue`). -/
def retainedComponents : List ComponentItem → List ComponentItem
  | [] => []
  | c :: rest =>
    if c.formula = "" ∨ c.matrix = 0 then retainedComponents rest
    else c :: retainedComponents rest

/-- JS 32-bit signed-integer wrap (the `hash & hash` coercion). -/
def toInt32 (n : ℤ) : ℤ := (n + 2147483648) % 4294967296 - 2147483648

/-- One step of the string hash (`BatchContext.tsx` 481-488):
`hash = ((hash << 5) - hash) + charCode; hash = hash & hash`. -/
def hashStep (h : ℤ) (c : ℕ) : ℤ := toInt32 (toInt32 (h * 32) - h + c)

def hashCode (s : String) : ℤ := s.toList.foldl (fun h c => hashStep h c.toNat) 0

/-- `Math.abs(hashCode(compound) % 360)` (`BatchContext.tsx` 491); JS `%` is
the truncated remainder, `Int.tmod`. -/
def hueOf (s : String) : ℕ := (Int.tmod (hashCode s) 360).natAbs

/-- The emitted color string (`BatchContext.tsx` 492). -/
def getCompoundColor (s : String) : String :=
  "hsl(" ++ toString (hueOf s) ++ ", 70%, 60%)"

/-- The compound map built by `generateCompositionData` (`BatchContext.tsx`
466-474): a JS `Map`, so a repeated formula overwrites its previous value. -/
def compoundMap (components : List ComponentItem) : List (String × ℚ) :=
  components.foldl
    (fun m c => if c.formula = "" ∨ c.matrix = 0 then m else mapSet m c.formula c.matrix)
    []

/-- `generateCompositionData` (`BatchContext.tsx` 464-500). -/
def generateCompositionData (components : List ComponentItem) : List ElementComposition :=
  (compoundMap components).map (fun p =>
    ⟨p.1, qmul (qdiv p.2 (qsum ((compoundMap components).map (fun q => q.2)))) 100,
      getCompoundColor p.1⟩)

/-! ### Atomic-mass CSV loader (`BatchContext.tsx` 101-117) -/

/-- Split a character list at a separator, as JS `String.split` does. -/
def splitOnChar (sep : Char) : List Char → List (List Char)
  | [] => [[]]
  | c :: cs =>
    if c = sep then [] :: splitOnChar sep cs
    else
      match splitOnChar sep cs with
      | h :: t => (c :: h) :: t
      | [] => [[c]]

def jsSplit (sep : Char) (s : String) : List String :=
  (splitOnChar sep s.toList).map String.mk

/-- JS `String.prototype.trim`: strip whitespace from both ends. -/
def jsTrim (s : String) : String :=
  String.mk (((s.toList.dropWhile Char.isWhitespace).reverse.dropWhile Char.isWhitespace).reverse)

/-- JS `Number(...)` on the strings arising in the CSV: empty/whitespace text
is 0, a decimal numeral is its value, anything else is `NaN` (`none`). -/
def jsNumber (s : String) : Option ℚ :=
  match (jsTrim s).toList with
  | [] => some 0
  | c :: cs =>
    if c.isDigit then
      match (readDigits (c :: cs)).2 with
      | [] => some (mkRat (digitsToNat (readDigits (c :: cs)).1) 1)
      | '.' :: rest =>
        if (readDigits rest).2 = [] then
          some (mkRat (digitsToNat (readDigits (c :: cs)).1 * 10 ^ (readDigits rest).1.length +
            digitsToNat (readDigits rest).1) (10 ^ (readDigits rest).1.length))
        else none
      | _ => none
    else none

/-- The CSV load effect (`BatchContext.tsx` 101-117): skip the header line,
split each remaining line on commas and read the columns positionally
(`AtomicNumber, ElementName, Symbol, AtomicMass`).  Every line is mapped
unconditionally: a missing column yields `undefined` / `NaN` fields (`none`)
rather than a rejected row. -/
def loadAtomics (txt : String) : List RawAtomicMass :=
  ((jsSplit '\n' (jsTrim txt)).drop 1).map (fun l =>
    ⟨(jsSplit ',' l)[2]?, ((jsSplit ',' l)[3]?).bind jsNumber,
      (jsSplit ',' l)[1]?, ((jsSplit ',' l)[0]?).bind jsNumber⟩)

/-! ### Component-count resize effect (`BatchContext.tsx` 138-153) -/

/-- The components list after `numComponents` changes to `n`: append blank
components (`{formula: "", matrix: 0, mw: 0}`) or truncate. -/
def resizeComponents (prev : List ComponentItem) (n : ℕ) : List ComponentItem :=
  if prev.length < n then prev ++ List.replicate (n - prev.length) ⟨"", 0, 0⟩
  else prev.take n

/-- The whole effect: the resized list plus the new `numProducts`
(`setNumProducts(numComponents)`, `BatchContext.tsx` 152). -/
def setNumComponentsEffect (prev : List ComponentItem) (n : ℕ) : List ComponentItem × ℕ :=
  (resizeComponents prev n, n)

/-! ### Concrete tables used by the example-based theorems -/

/-- Atomic masses H = 1.008, B = 10.811, O = 15.999, as in the spec examples. -/
def specTable : List AtomicMass :=
  [⟨"H", mkRat 1008 1000, "Hydrogen", 1⟩,
   ⟨"B", mkRat 10811 1000, "Boron", 5⟩,
   ⟨"O", mkRat 15999 1000, "Oxygen", 8⟩]

/-! ## Theorems -/

theorem qadd_eq (a b : ℚ) : qadd a b = a + b := (Rat.add_def' a b).symm

theorem qmul_eq (a b : ℚ) : qmul a b = a * b := by
  rw [qmul, ← Rat.mkRat_mul_mkRat, Rat.mkRat_self, Rat.mkRat_self]

theorem qdiv_eq (a b : ℚ) : qdiv a b = a / b := (Rat.div_def' a b).symm

theorem qsum_eq (l : List ℚ) : qsum l = l.sum := by
  induction l with
  | nil => rfl
  | cons x xs ih => rw [qsum, List.foldr_cons, ← qsum, ih, qadd_eq, List.sum_cons]

theorem sumMasses_eq_none (counts : List (String × ℚ)) (table : List AtomicMass) (s : String)
    (k : ℚ) (hmem : (s, k) ∈ counts) (hlook : lookupMass table s = none) :
    sumMasses counts table = none := by
  induction counts with
  | nil => cases hmem
  | cons p rest ih =>
    rcases List.mem_cons.mp hmem with h | h
    · rw [sumMasses, show p.1 = s from congrArg Prod.fst h.symm, hlook]
    · rw [sumMasses, ih h]
      cases lookupMass table p.1 <;> rfl

/-- Claim C1, counterexample: with the spec's atomic-mass table, the symbol
`Xx` is absent, so the molecular weight is undefined; yet `BatchProvider`
stores the number 0 into the component's `mw` (both in the table-load effect
and in `handleComponentChange`), and the dependent raw quantity computes to
the number 0 — the undefined value is not propagated. -/
theorem mw_zero_substitution_counterexample :
    molecularWeight "Xx" specTable = none ∧
    updateComponentMWs [⟨"Xx", 30, 5⟩] specTable = [⟨"Xx", 30, 0⟩] ∧
    handleComponentFormulaChange [⟨"CaO", 30, 5⟩] specTable 0 "Xx" = [⟨"Xx", 30, 0⟩] ∧
    (compResults [⟨"Xx", 30, 0⟩] []).map (fun r => r.molQty) = [0] := by decide

/-- Claim C1 (amended): the molecular-weight calculator itself returns
undefined (`none`) when parsing fails or any symbol is absent from the table,
never substituting zero — but `BatchProvider` coerces that undefined value to
the number 0 (`|| 0`) when storing component and product molecular weights,
so dependent calculations receive 0 rather than undefined. -/
theorem molecularWeight_undefined_then_zeroed (f : String) (table : List AtomicMass) :
    (parseFormula f = none → molecularWeight f table = none) ∧
    (∀ counts s k, parseFormula f = some counts → (s, k) ∈ counts →
      lookupMass table s = none → molecularWeight f table = none) ∧
    (molecularWeight f table = none → mwOrZero f table = 0) := by
  refine ⟨?_, ?_, ?_⟩
  · intro h; rw [molecularWeight, h]; rfl
  · intro counts s k hp hmem hlook
    rw [molecularWeight, hp]
    exact sumMasses_eq_none counts table s k hmem hlook
  · intro h; rw [mwOrZero, h]; rfl

theorem molecularWeight_undefined_then_zeroed_witness :
    molecularWeight "Xy" [] = none ∧ mwOrZero "Xy" [] = 0 := by
  have h := molecularWeight_undefined_then_zeroed "Xy" []
  have h1 : molecularWeight "Xy" [] = none :=
    h.2.1 [("Xy", 1)] "Xy" 1 (by decide) (by decide) (by decide)
  exact ⟨h1, h.2.2 h1⟩

/-- Claim C4: `parse("Ca3(PO4)2")` succeeds and returns `{Ca:3, P:2, O:8}`:
the literal after the closing parenthesis multiplies every count of the
popped group, and the multiplied counts are summed (not overwritten) into
the enclosing scope. -/
theorem parseFormula_nested_group_sums :
    parseFormula "Ca3(PO4)2" = some [("Ca", 3), ("P", 2), ("O", 8)] := by decide

/-- Claim C5: the gravimetric factor is
`(productMoles * MW(product)) / (precursorMoles * MW(precursor))`; it is
undefined when either molecular weight is undefined or `precursorMoles ≤ 0`;
`productMoles = 0` yields `GF = 0`; and on the spec's table
`gravimetricFactor("H3BO3", "B2O3", 2, 1)` is `69619/123664 ≈ 0.5625`. -/
theorem calculateGF_spec_behavior (pre prod : String) (pm qm : ℚ) (table : List AtomicMass) :
    (molecularWeight pre table = none ∨ molecularWeight prod table = none ∨ pm ≤ 0 →
      calculateGF pre prod pm qm table = none) ∧
    (∀ a b, molecularWeight pre table = some a → molecularWeight prod table = some b →
      0 < pm → calculateGF pre prod pm qm table = some (qm * b / (pm * a))) ∧
    (∀ a b, molecularWeight pre table = some a → molecularWeight prod table = some b →
      0 < pm → qm = 0 → calculateGF pre prod pm qm table = some 0) ∧
    calculateGF "H3BO3" "B2O3" 2 1 specTable = some (mkRat 69619 123664) ∧
    |mkRat 69619 123664 - (5625 : ℚ) / 10000| < 1 / 1000 := by
  have key : ∀ a b, molecularWeight pre table = some a → molecularWeight prod table = some b →
      0 < pm → calculateGF pre prod pm qm table = some (qm * b / (pm * a)) := by
    intro a b ha hb hpm
    rw [calculateGF, ha, hb]
    simp only [not_le.mpr hpm, if_false, qdiv_eq, qmul_eq]
  refine ⟨?_, key, ?_, by decide, ?_⟩
  · rintro (h | h | h)
    · rw [calculateGF, h]
    · rw [calculateGF, h]; cases molecularWeight pre table <;> rfl
    · rw [calculateGF]
      cases molecularWeight pre table with
      | none => rfl
      | some a =>
        cases molecularWeight prod table with
        | none => rfl
        | some b => exact if_pos h
  · intro a b ha hb hpm hq
    rw [key a b ha hb hpm, hq, zero_mul, zero_div]
  · rw [Rat.mkRat_eq_divInt, Rat.divInt_eq_div, abs_lt]
    constructor <;> norm_num

theorem calculateGF_spec_behavior_witness :
    calculateGF "H3BO3" "B2O3" 2 1 specTable =
      some ((1 : ℚ) * mkRat 69619 1000 / ((2 : ℚ) * mkRat 7729 125)) :=
  (calculateGF_spec_behavior "H3BO3" "B2O3" 2 1 specTable).2.1 (mkRat 7729 125)
    (mkRat 69619 1000) (by decide) (by decide) (by norm_num)

/-- Claim C6: when the total raw quantity is 0, every normalized output is 0
(the division is guarded), so the output is an all-zero vector with no
undefined entry. -/
theorem normalize_zero_total (components : List ComponentItem) (desired : ℚ)
    (molesMap : List (String × ℚ))
    (h : calculateTotalBatchWeight components molesMap = 0) :
    (calculateAdjustedBatchWeights components (calculateTotalBatchWeight components molesMap)
        desired molesMap).map (fun w => w.weight) = List.replicate components.length 0 := by
  rw [h, calculateAdjustedBatchWeights, List.map_map]
  refine (List.map_congr_left ?_).trans (List.map_const' components 0)
  intro c _
  simp [Function.comp]

theorem normalize_zero_total_witness :
    (calculateAdjustedBatchWeights [⟨"A", 0, 5⟩]
        (calculateTotalBatchWeight [⟨"A", 0, 5⟩] []) 5 []).map (fun w => w.weight) =
      List.replicate (List.length [(⟨"A", 0, 5⟩ : ComponentItem)]) 0 :=
  normalize_zero_total [⟨"A", 0, 5⟩] 5 [] (by decide)

/-- Claim C10: setting the number of components to `n` yields a list of
length exactly `n` that keeps the first `min(n, previous length)` entries
unchanged, appends blank components `{formula: "", matrix: 0, mw: 0}` as
needed, and sets `numProducts` to `n`. -/
theorem setNumComponents_resizes (prev : List ComponentItem) (n : ℕ) :
    (setNumComponentsEffect prev n).1.length = n ∧
    (setNumComponentsEffect prev n).1 =
      prev.take n ++ List.replicate (n - prev.length) ⟨"", 0, 0⟩ ∧
    (setNumComponentsEffect prev n).2 = n := by
  have key : resizeComponents prev n =
      prev.take n ++ List.replicate (n - prev.length) ⟨"", 0, 0⟩ := by
    rw [resizeComponents]
    by_cases h : prev.length < n
    · rw [if_pos h, List.take_of_length_le (Nat.le_of_lt h)]
    · rw [if_neg h, Nat.sub_eq_zero_of_le (Nat.le_of_not_lt h), List.replicate_zero,
        List.append_nil]
  refine ⟨?_, key, rfl⟩
  rw [show (setNumComponentsEffect prev n).1 = resizeComponents prev n from rfl, key,
    List.length_append, List.length_take, List.length_replicate]
  omega

theorem mapGet_mapSet (m : List (String × ℚ)) (k : String) (v : ℚ) (q : String) :
    mapGet (mapSet m k v) q = if k = q then some v else mapGet m q := by
  induction m with
  | nil => simp [mapSet, mapGet]
  | cons p rest ih =>
    rw [mapSet]
    by_cases h : p.1 = k
    · subst h
      by_cases hq : p.1 = q
      · subst hq; simp [mapGet]
      · simp [mapGet, hq]
    · rw [if_neg h]
      by_cases hq : p.1 = q
      · subst hq
        have hk : ¬k = p.1 := fun e => h e.symm
        simp [mapGet, hk]
      · simp [mapGet, hq, ih]

theorem precursorMolesMap_values (products : List ProductItem) :
    ∀ acc f v,
      mapGet (products.foldl (fun m p =>
          if p.precursorFormula = "" then m
          else mapSet m p.precursorFormula p.precursorMoles) acc) f = some v →
      mapGet acc f = some v ∨ ∃ p, p ∈ products ∧ p.precursorMoles = v := by
  induction products with
  | nil => exact fun acc f v h => Or.inl h
  | cons p rest ih =>
    intro acc f v h
    rw [List.foldl_cons] at h
    rcases ih _ f v h with h2 | ⟨q, hq, hv⟩
    · by_cases hp : p.precursorFormula = ""
      · rw [if_pos hp] at h2; exact Or.inl h2
      · rw [if_neg hp, mapGet_mapSet] at h2
        by_cases hf : p.precursorFormula = f
        · rw [if_pos hf] at h2
          exact Or.inr ⟨p, List.mem_cons_self p rest, Option.some.inj h2⟩
        · rw [if_neg hf] at h2; exact Or.inl h2
    · exact Or.inr ⟨q, List.mem_cons_of_mem p hq, hv⟩

theorem jsOrQ_precursorMolesMap (products : List ProductItem) (f : String)
    (hpos : ∀ p ∈ products, 0 < p.precursorMoles) :
    jsOrQ (mapGet (precursorMolesMap products) f) 1 = moleRatioFromSpec products f := by
  cases h : mapGet (precursorMolesMap products) f with
  | none => simp [jsOrQ, moleRatioFromSpec, h]
  | some v =>
    rcases precursorMolesMap_values products [] f v (by rwa [precursorMolesMap] at h) with
      h2 | ⟨p, hp, hv⟩
    · cases h2
    · subst hv
      simp [jsOrQ, moleRatioFromSpec, h, ne_of_gt (hpos p hp)]

/-- Claim C2: every entry of `compResults` has raw quantity
`matrixPercent * weight * moleRatio / 1000`, where the mole ratio is the
matched product's precursor-mole value and defaults to 1 when no associated
product supplies one.  The hypothesis is the data-model invariant
`precursorMoles > 0` (spec section 3); the code's `|| 1` would also send an
out-of-model mole value of 0 to the default 1. -/
theorem compResults_raw_quantity (components : List ComponentItem) (products : List ProductItem)
    (hpos : ∀ p ∈ products, 0 < p.precursorMoles) :
    compResults components products = components.map (fun c =>
      ⟨c.formula, c.matrix, c.mw,
        c.matrix * c.mw * moleRatioFromSpec products c.formula / 1000⟩) := by
  rw [compResults]
  refine List.map_congr_left ?_
  intro c _
  rw [jsOrQ_precursorMolesMap products c.formula hpos, qmul_eq, qmul_eq, qdiv_eq]

theorem compResults_raw_quantity_witness :
    compResults [⟨"H3BO3", 60, 6⟩] [⟨"B2O3", 7, none, "H3BO3", 2, 1⟩] =
      [⟨"H3BO3", 60, 6,
        60 * 6 * moleRatioFromSpec [⟨"B2O3", 7, none, "H3BO3", 2, 1⟩] "H3BO3" / 1000⟩] :=
  compResults_raw_quantity [⟨"H3BO3", 60, 6⟩] [⟨"B2O3", 7, none, "H3BO3", 2, 1⟩] (by decide)

/-- Claim C9: on a CSV whose last row is malformed (only two columns), the
loader skips the header and parses the well-formed row positionally, but it
does not reject the malformed row — the row is loaded as an entry whose
`Symbol` is `undefined` and whose atomic mass is `NaN` (`none` here), because
every non-header line is mapped unconditionally. -/
theorem loadAtomics_keeps_malformed_row :
    loadAtomics "AtomicNumber,ElementName,Symbol,AtomicMass\n1,Hydrogen,H,1.008\n12,Magnesium" =
      [⟨some "H", some (mkRat 1008 1000), some "Hydrogen", some 1⟩,
       ⟨none, none, some "Magnesium", some 12⟩] := by decide

theorem setNumComponents_resizes_witness :
    (setNumComponentsEffect [⟨"CaO", 30, 56⟩] 3).1.length = 3 ∧
    (setNumComponentsEffect [⟨"CaO", 30, 56⟩] 3).1 =
      List.take 3 [⟨"CaO", 30, 56⟩] ++ List.replicate (3 - List.length [(⟨"CaO", 30, 56⟩ :
        ComponentItem)]) ⟨"", 0, 0⟩ ∧
    (setNumComponentsEffect [⟨"CaO", 30, 56⟩] 3).2 = 3 :=
  setNumComponents_resizes [⟨"CaO", 30, 56⟩] 3

/-- Claim C3: in the product-basis (gravimetric-factor-adjusted) view, every
product whose `gf` is available uses `mw * gf` as its weight, and every
product without one keeps its unadjusted `mw`, both in `productResults` and
in the components handed to the normalizer; the batch weights are then the
same order-preserving raw/total/scale computation.  The hypothesis is the
data-model invariant that mole counts are positive (spec section 3). -/
theorem productBasis_gf_adjustment (components : List ComponentItem)
    (products : List ProductItem) (desired : ℚ)
    (hpos : ∀ p ∈ products, 0 < p.productMoles ∧ 0 < p.precursorMoles) :
    productResults components products = products.map (fun p =>
      ⟨p.formula, p.mw, p.gf, p.precursorFormula, p.precursorMoles, p.productMoles,
        matrixOfPrecursor components p.precursorFormula *
          (match p.gf with | some g => p.mw * g | none => p.mw) *
          p.productMoles / 1000⟩) ∧
    productComponents components products = products.map (fun p =>
      ⟨p.formula, matrixOfPrecursor components p.precursorFormula,
        match p.gf with | some g => p.mw * g | none => p.mw⟩) ∧
    productBatchWeights components products desired =
      (productComponents components products).map (fun c =>
        ⟨c.formula,
          if productTotalWeight components products = 0 then 0
          else desired * (c.matrix * c.mw *
              jsOrQ (mapGet (productMolesMap products) c.formula) 1 / 1000) /
            productTotalWeight components products⟩) := by
  refine ⟨?_, ?_, ?_⟩
  · rw [productResults]
    refine List.map_congr_left ?_
    intro p hp
    cases hg : p.gf with
    | none => simp only [effectiveMW, hg, qmul_eq, qdiv_eq]
    | some g => simp only [effectiveMW, hg, if_pos (hpos p hp), qmul_eq, qdiv_eq]
  · rw [productComponents]
    refine List.map_congr_left ?_
    intro p _
    cases hg : p.gf with
    | none => simp only [gfWeight, hg]
    | some g => simp only [gfWeight, hg, qmul_eq]
  · rw [productBatchWeights, calculateAdjustedBatchWeights]
    refine List.map_congr_left ?_
    intro c _
    by_cases hT : productTotalWeight components products = 0
    · simp [hT]
    · simp only [if_neg hT, qmul_eq, qdiv_eq]

theorem productBasis_gf_adjustment_witness :
    productResults [⟨"H3BO3", 60, 6⟩] [⟨"B2O3", 7, some 2, "H3BO3", 2, 1⟩] =
      [⟨"B2O3", 7, some 2, "H3BO3", 2, 1,
        matrixOfPrecursor [⟨"H3BO3", 60, 6⟩] "H3BO3" * (7 * 2) * 1 / 1000⟩] ∧
    productComponents [⟨"H3BO3", 60, 6⟩] [⟨"B2O3", 7, some 2, "H3BO3", 2, 1⟩] =
      [⟨"B2O3", matrixOfPrecursor [⟨"H3BO3", 60, 6⟩] "H3BO3", 7 * 2⟩] ∧
    productBatchWeights [⟨"H3BO3", 60, 6⟩] [⟨"B2O3", 7, some 2, "H3BO3", 2, 1⟩] 5 =
      (productComponents [⟨"H3BO3", 60, 6⟩] [⟨"B2O3", 7, some 2, "H3BO3", 2, 1⟩]).map
        (fun c =>
          ⟨c.formula,
            if productTotalWeight [⟨"H3BO3", 60, 6⟩] [⟨"B2O3", 7, some 2, "H3BO3", 2, 1⟩] = 0
            then 0
            else 5 * (c.matrix * c.mw *
                jsOrQ (mapGet (productMolesMap [⟨"B2O3", 7, some 2, "H3BO3", 2, 1⟩])
                  c.formula) 1 / 1000) /
              productTotalWeight [⟨"H3BO3", 60, 6⟩] [⟨"B2O3", 7, some 2, "H3BO3", 2, 1⟩]⟩) :=
  productBasis_gf_adjustment [⟨"H3BO3", 60, 6⟩] [⟨"B2O3", 7, some 2, "H3BO3", 2, 1⟩] 5
    (by decide)

theorem natAbs_tmod_360 (a : ℤ) : (Int.tmod a 360).natAbs = a.natAbs % 360 := by
  cases a with
  | ofNat m => rfl
  | negSucc m =>
    show (-(Int.ofNat (m.succ % 360))).natAbs = m.succ % 360
    rw [Int.natAbs_neg]
    rfl

theorem mem_composition_color (l : List ComponentItem) (e : ElementComposition)
    (h : e ∈ generateCompositionData l) : e.color = getCompoundColor e.element := by
  rcases List.mem_map.mp h with ⟨p, _, rfl⟩
  rfl

theorem getCompoundColor_format (s : String) :
    getCompoundColor s = "hsl(" ++ toString ((hashCode s).natAbs % 360) ++ ", 70%, 60%)" := by
  rw [getCompoundColor, hueOf, natAbs_tmod_360]

/-- Claim C8: the composition color is a deterministic function of the
formula string alone — entries with the same formula, in any two outputs,
get the same color, and that color is
`hsl(abs(hash(formula)) mod 360, 70%, 60%)`. -/
theorem composition_color_deterministic (l1 l2 : List ComponentItem)
    (e1 e2 : ElementComposition) (h1 : e1 ∈ generateCompositionData l1)
    (h2 : e2 ∈ generateCompositionData l2) (heq : e1.element = e2.element) :
    e1.color = e2.color ∧
    e1.color = "hsl(" ++ toString ((hashCode e1.element).natAbs % 360) ++ ", 70%, 60%)" := by
  have c1 := mem_composition_color l1 e1 h1
  have c2 := mem_composition_color l2 e2 h2
  refine ⟨?_, by rw [c1, getCompoundColor_format]⟩
  rw [c1, c2, heq]

theorem composition_color_deterministic_witness :
    (⟨"CaO", 100, getCompoundColor "CaO"⟩ : ElementComposition).color =
      (⟨"CaO", mkRat 6000 61, getCompoundColor "CaO"⟩ : ElementComposition).color ∧
    (⟨"CaO", 100, getCompoundColor "CaO"⟩ : ElementComposition).color =
      "hsl(" ++ toString ((hashCode (⟨"CaO", 100, getCompoundColor "CaO"⟩ :
        ElementComposition).element).natAbs % 360) ++ ", 70%, 60%)" :=
  composition_color_deterministic [⟨"CaO", 30, 0⟩] [⟨"X", 1, 0⟩, ⟨"CaO", 60, 0⟩]
    ⟨"CaO", 100, getCompoundColor "CaO"⟩ ⟨"CaO", mkRat 6000 61, getCompoundColor "CaO"⟩
    (by decide) (by decide) (by decide)

/-- Claim C7, counterexample: two retained components share the formula
`CaO`; the claim demands one output entry per retained component (two
entries, 1/3 and 2/3), but the JS `Map` collapses them into a single entry
whose value is the last matrix, shown at 100%. -/
theorem composition_duplicate_counterexample :
    (generateCompositionData [⟨"CaO", 30, 0⟩, ⟨"CaO", 60, 0⟩]).length = 1 ∧
    (retainedComponents [⟨"CaO", 30, 0⟩, ⟨"CaO", 60, 0⟩]).length = 2 ∧
    generateCompositionData [⟨"CaO", 30, 0⟩, ⟨"CaO", 60, 0⟩] =
      [⟨"CaO", 100, getCompoundColor "CaO"⟩] := by decide

theorem mapGet_append_none (m : List (String × ℚ)) (q k : String) (v : ℚ)
    (h1 : mapGet m q = none) (h2 : ¬q = k) :
    mapGet (m ++ [(k, v)]) q = none := by
  induction m with
  | nil =>
    have hk : ¬k = q := fun e => h2 e.symm
    simp [mapGet, hk]
  | cons p rest ih =>
    rw [List.cons_append, mapGet]
    rw [mapGet] at h1
    by_cases hp : p.1 = q
    · rw [if_pos hp] at h1; cases h1
    · rw [if_neg hp] at h1
      rw [if_neg hp]
      exact ih h1

theorem mapSet_of_get_none (m : List (String × ℚ)) (k : String) (v : ℚ)
    (h : mapGet m k = none) : mapSet m k v = m ++ [(k, v)] := by
  induction m with
  | nil => rfl
  | cons p rest ih =>
    rw [mapGet] at h
    by_cases hp : p.1 = k
    · rw [if_pos hp] at h; cases h
    · rw [if_neg hp] at h
      rw [mapSet, if_neg hp, ih h, List.cons_append]

theorem compoundFold_append (components : List ComponentItem) :
    ∀ acc, (∀ c ∈ retainedComponents components, mapGet acc c.formula = none) →
      ((retainedComponents components).map (fun c => c.formula)).Nodup →
      components.foldl (fun m c =>
          if c.formula = "" ∨ c.matrix = 0 then m else mapSet m c.formula c.matrix) acc =
        acc ++ (retainedComponents components).map (fun c => (c.formula, c.matrix)) := by
  induction components with
  | nil => intro acc _ _; simp [retainedComponents]
  | cons c rest ih =>
    intro acc hacc hnd
    rw [List.foldl_cons]
    by_cases h : c.formula = "" ∨ c.matrix = 0
    · have hr : retainedComponents (c :: rest) = retainedComponents rest := by
        rw [retainedComponents, if_pos h]
      rw [hr] at hacc hnd
      rw [if_pos h, hr]
      exact ih acc hacc hnd
    · have hr : retainedComponents (c :: rest) = c :: retainedComponents rest := by
        rw [retainedComponents, if_neg h]
      rw [hr] at hacc hnd
      have hc : mapGet acc c.formula = none := hacc c (List.mem_cons_self c _)
      have hnotmem := (List.nodup_cons.mp hnd).1
      have hnd2 := (List.nodup_cons.mp hnd).2
      have hacc2 : ∀ x ∈ retainedComponents rest,
          mapGet (acc ++ [(c.formula, c.matrix)]) x.formula = none := by
        intro x hx
        refine mapGet_append_none acc x.formula c.formula c.matrix
          (hacc x (List.mem_cons_of_mem c hx)) ?_
        intro e
        refine hnotmem ?_
        show c.formula ∈ List.map (fun cc => cc.formula) (retainedComponents rest)
        rw [← e]
        exact List.mem_map_of_mem (fun cc => cc.formula) hx
      rw [if_neg h, mapSet_of_get_none acc c.formula c.matrix hc,
        ih (acc ++ [(c.formula, c.matrix)]) hacc2 hnd2, hr, List.map_cons,
        List.append_assoc]
      rfl

theorem compoundMap_eq_of_nodup (components : List ComponentItem)
    (hnd : ((retainedComponents components).map (fun c => c.formula)).Nodup) :
    compoundMap components =
      (retainedComponents components).map (fun c => (c.formula, c.matrix)) := by
  rw [compoundMap]
  exact compoundFold_append components [] (fun c _ => rfl) hnd

/-- Claim C7 (amended): the composition output has exactly one entry per
distinct retained formula (components with an empty formula or zero matrix
are skipped); a repeated formula keeps its first position but is overwritten
with the later matrix value.  When the retained formulas are pairwise
distinct — the claim's situation — there is exactly one entry per retained
component, with percentage `matrixPercent / sum(matrixPercent) * 100` over
the retained entries. -/
theorem composition_one_entry_per_distinct_formula (components : List ComponentItem)
    (hnd : ((retainedComponents components).map (fun c => c.formula)).Nodup) :
    generateCompositionData components = (retainedComponents components).map (fun c =>
      ⟨c.formula,
        c.matrix / ((retainedComponents components).map (fun c => c.matrix)).sum * 100,
        getCompoundColor c.formula⟩) := by
  rw [generateCompositionData, compoundMap_eq_of_nodup components hnd, List.map_map]
  refine List.map_congr_left ?_
  intro c _
  have hin : ((retainedComponents components).map (fun c => (c.formula, c.matrix))).map
      (fun q => q.2) = (retainedComponents components).map (fun c => c.matrix) := by
    rw [List.map_map]; rfl
  simp only [Function.comp_apply]
  rw [hin, qmul_eq, qdiv_eq, qsum_eq]

theorem composition_one_entry_witness :
    generateCompositionData [⟨"CaO", 30, 0⟩, ⟨"MgO", 60, 0⟩] =
      (retainedComponents [⟨"CaO", 30, 0⟩, ⟨"MgO", 60, 0⟩]).map (fun c =>
        ⟨c.formula,
          c.matrix /
            ((retainedComponents [⟨"CaO", 30, 0⟩, ⟨"MgO", 60, 0⟩]).map
              (fun c => c.matrix)).sum * 100,
          getCompoundColor c.formula⟩) :=
  composition_one_entry_per_distinct_formula [⟨"CaO", 30, 0⟩, ⟨"MgO", 60, 0⟩] (by decide)

end SynthChar
